import Mathlib

/-!
Verification of the human-escalation and knowledge-learning workflow of the
AI-Voice-Retail-Assistant repository, together with the voice WebSocket
reconnection logic of the web front end.

The backend that implements the workflow (`firebase_service.py`, `tool.py`,
`response_monitor.py`, `supervisor_ui.py`) is documented in the repository
(QUICKSTART.md) but its source is not part of the checked-in tree, so the
workflow components below are modelled from the specification's own
description of the data model and the algorithms.  The front-end WebSocket
client (`frontend/src/lib/voiceWebSocket.ts`) is present in the tree and is
embedded directly from its source.
-/

namespace HITL

/-- Source of a knowledge entry.  Modelled from the spec: `source`: enum
{operator, manual} (§3 KnowledgeEntry). -/
inductive Source where
  | operator
  | manual
deriving DecidableEq

/-- Modelled from the spec: a learned question→answer entry (§3
KnowledgeEntry): normalized question text used as matching key, free-text
answer, source, a `timesUsed` counter incremented on every lookup hit, and
`createdAt` / `updatedAt` timestamps. -/
structure KnowledgeEntry where
  normalizedQuestion : String
  answer : String
  source : Source
  timesUsed : Nat
  createdAt : Nat
  updatedAt : Nat
deriving DecidableEq

/-- Split a character list into maximal whitespace-free words; `cur` holds
the (reversed) word currently being read. -/
def wordsAux : List Char → List Char → List (List Char)
  | cur, [] => if cur = [] then [] else [cur.reverse]
  | cur, c :: cs =>
      if c.isWhitespace then
        if cur = [] then wordsAux [] cs else cur.reverse :: wordsAux [] cs
      else wordsAux (c :: cur) cs

/-- The whitespace-separated words of a character list, as strings. -/
def wordsOf (l : List Char) : List String := (wordsAux [] l).map String.mk

/-- Join words with single spaces. -/
def joinWords : List String → String
  | [] => ""
  | [w] => w
  | w :: ws => w ++ " " ++ joinWords ws

/-- Modelled from the spec: normalization = lowercase, whitespace-collapsed
text (§3 KnowledgeEntry.normalizedQuestion). -/
def normalize (s : String) : String :=
  joinWords (wordsOf (s.data.map Char.toLower))

/-- Modelled from the spec: the word set of a question, case-insensitive and
with punctuation stripped (§4.1 lookup: "word-set containment,
case-insensitive, punctuation stripped") — lowercase the text, drop every
character that is neither alphanumeric nor whitespace, split into words and
deduplicate. -/
def tokens (s : String) : List String :=
  (wordsOf ((s.data.map Char.toLower).filter
    (fun c => c.isAlphanum || c.isWhitespace))).dedup

/-- Modelled from the spec: the 50% fuzzy-match threshold (§4.1: "declare a
hit iff the best score ≥ 0.5"), as the exact rational 1/2. -/
def matchThreshold : ℚ := Rat.divInt 1 2

theorem matchThreshold_eq : matchThreshold = (1 : ℚ)/2 := by
  rw [matchThreshold, Rat.divInt_eq_div]
  norm_num

/-- Modelled from the spec: token-overlap similarity of an entry against the
query token set `tq`, namely
`|tokens(question) ∩ tokens(entry.normalizedQuestion)| / |tokens(entry.normalizedQuestion)|`
(§4.1), as an exact rational.  An entry with no tokens gets score 0. -/
def entryScore (tq : List String) (e : KnowledgeEntry) : ℚ :=
  let te := tokens e.normalizedQuestion
  if te.length = 0 then 0
  else Rat.divInt ((te.filter (fun t => decide (t ∈ tq))).length : ℤ) (te.length : ℤ)

/-- Ranking key of an entry for a given query: score first, then recency
(§4.1: "Ties broken by most-recently-updated entry"). -/
def key (tq : List String) (e : KnowledgeEntry) : ℚ × Nat :=
  (entryScore tq e, e.updatedAt)

/-- Strict lexicographic order on (score, updatedAt) ranking keys. -/
def lexLt (a b : ℚ × Nat) : Prop :=
  a.1 < b.1 ∨ (a.1 = b.1 ∧ a.2 < b.2)

/-- Reflexive lexicographic order on (score, updatedAt) ranking keys. -/
def lexLe (a b : ℚ × Nat) : Prop :=
  a.1 < b.1 ∨ (a.1 = b.1 ∧ a.2 ≤ b.2)

instance (a b : ℚ × Nat) : Decidable (lexLt a b) := by
  unfold lexLt; infer_instance

instance (a b : ℚ × Nat) : Decidable (lexLe a b) := by
  unfold lexLe; infer_instance

theorem lexLe_refl (a : ℚ × Nat) : lexLe a a := Or.inr ⟨rfl, le_refl _⟩

theorem lexLe_trans {a b c : ℚ × Nat} (h₁ : lexLe a b) (h₂ : lexLe b c) : lexLe a c := by
  rcases h₁ with h₁ | ⟨h₁, h₁'⟩ <;> rcases h₂ with h₂ | ⟨h₂, h₂'⟩
  · exact Or.inl (lt_trans h₁ h₂)
  · exact Or.inl (h₂ ▸ h₁)
  · exact Or.inl (h₁ ▸ h₂)
  · exact Or.inr ⟨h₁.trans h₂, le_trans h₁' h₂'⟩

theorem lexLe_of_lexLt {a b : ℚ × Nat} (h : lexLt a b) : lexLe a b := by
  rcases h with h | ⟨h, h'⟩
  · exact Or.inl h
  · exact Or.inr ⟨h, le_of_lt h'⟩

theorem lexLe_of_not_lexLt {a b : ℚ × Nat} (h : ¬ lexLt b a) : lexLe a b := by
  unfold lexLt at h
  push_neg at h
  rcases lt_trichotomy a.1 b.1 with hlt | heq | hgt
  · exact Or.inl hlt
  · exact Or.inr ⟨heq, h.2 heq.symm⟩
  · exact absurd hgt (not_lt_of_le h.1)

theorem lexLe_score {a b : ℚ × Nat} (h : lexLe a b) : a.1 ≤ b.1 := by
  rcases h with h | ⟨h, _⟩
  · exact le_of_lt h
  · exact le_of_eq h

/-- Best-entry selection loop: walk the remaining entries, keeping the
current champion `(index, entry)` and replacing it exactly when a later
entry's ranking key is strictly lexicographically greater (higher score, or
equal score and strictly more recent update). -/
def pickAux (tq : List String) : List KnowledgeEntry → Nat → Nat × KnowledgeEntry →
    Nat × KnowledgeEntry
  | [], _, cur => cur
  | e :: es, i, cur =>
      pickAux tq es (i + 1) (if lexLt (key tq cur.2) (key tq e) then (i, e) else cur)

/-- Modelled from the spec: select the entry with the highest similarity
score, ties broken by the most-recently-updated entry (§4.1).  Returns the
index and the entry, or `none` for an empty store. -/
def pickBest (tq : List String) : List KnowledgeEntry → Option (Nat × KnowledgeEntry)
  | [] => none
  | e :: es => some (pickAux tq es 1 (0, e))

/-- Result of a knowledge-store lookup (§4.1): a hit carrying the matched
entry and its score, or a miss. -/
inductive LookupResult where
  | hit (e : KnowledgeEntry) (score : ℚ)
  | miss
deriving DecidableEq

/-- Modelled from the spec (§4.1 lookup): normalize the question, score every
stored entry by token overlap, select the best entry (recency tie-break),
declare a hit iff the best score is at least 1/2; on a hit increment the
selected entry's `timesUsed` (observable side effect), on a miss mutate
nothing. -/
def lookup (store : List KnowledgeEntry) (q : String) : LookupResult × List KnowledgeEntry :=
  match pickBest (tokens (normalize q)) store with
  | none => (.miss, store)
  | some (i, e) =>
      if matchThreshold ≤ entryScore (tokens (normalize q)) e then
        (.hit e (entryScore (tokens (normalize q)) e),
          store.set i { e with timesUsed := e.timesUsed + 1 })
      else (.miss, store)

/-- Modelled from the spec (§4.1 upsert): store/update an entry keyed by the
normalized question text; if an entry with the same normalized text exists
its `answer` and `source` are overwritten and `updatedAt` refreshed with
`timesUsed` preserved, otherwise a fresh entry is appended. -/
def upsert (store : List KnowledgeEntry) (q a : String) (src : Source) (now : Nat) :
    List KnowledgeEntry :=
  let nq := normalize q
  if store.any (fun e => decide (e.normalizedQuestion = nq)) then
    store.map (fun e =>
      if e.normalizedQuestion = nq then
        { e with answer := a, source := src, updatedAt := now }
      else e)
  else
    store ++ [⟨nq, a, src, 0, now, now⟩]

/-! ### Selection-loop lemmas -/

theorem pickAux_get? (tq : List String) (l : List KnowledgeEntry) :
    ∀ (es : List KnowledgeEntry) (i : Nat) (cur : Nat × KnowledgeEntry),
      l.get? cur.1 = some cur.2 →
      (∀ k, es.get? k = l.get? (i + k)) →
      l.get? (pickAux tq es i cur).1 = some (pickAux tq es i cur).2 := by
  intro es
  induction es with
  | nil => intro i cur hcur _; simpa [pickAux] using hcur
  | cons e es ih =>
      intro i cur hcur hes
      simp only [pickAux]
      by_cases hb : lexLt (key tq cur.2) (key tq e)
      · rw [if_pos hb]
        apply ih
        · have := (hes 0).symm
          simpa using this
        · intro k
          have := hes (k + 1)
          simpa [Nat.add_assoc, Nat.add_comm 1 k] using this
      · rw [if_neg hb]
        apply ih _ _ hcur
        intro k
        have := hes (k + 1)
        simpa [Nat.add_assoc, Nat.add_comm 1 k] using this

theorem pickAux_opt (tq : List String) :
    ∀ (es : List KnowledgeEntry) (i : Nat) (cur : Nat × KnowledgeEntry),
      lexLe (key tq cur.2) (key tq (pickAux tq es i cur).2) ∧
      ∀ e ∈ es, lexLe (key tq e) (key tq (pickAux tq es i cur).2) := by
  intro es
  induction es with
  | nil => intro i cur; exact ⟨lexLe_refl _, by intro e he; cases he⟩
  | cons e es ih =>
      intro i cur
      simp only [pickAux]
      by_cases hb : lexLt (key tq cur.2) (key tq e)
      · rw [if_pos hb]
        obtain ⟨hc, hl⟩ := ih (i + 1) (i, e)
        refine ⟨lexLe_trans (lexLe_of_lexLt hb) hc, ?_⟩
        intro e' he'
        rcases List.mem_cons.mp he' with rfl | he'
        · exact hc
        · exact hl e' he'
      · rw [if_neg hb]
        obtain ⟨hc, hl⟩ := ih (i + 1) cur
        refine ⟨hc, ?_⟩
        intro e' he'
        rcases List.mem_cons.mp he' with rfl | he'
        · exact lexLe_trans (lexLe_of_not_lexLt hb) hc
        · exact hl e' he'

theorem pickBest_get? (tq : List String) (store : List KnowledgeEntry) (i : Nat)
    (e : KnowledgeEntry) (h : pickBest tq store = some (i, e)) :
    store.get? i = some e := by
  cases store with
  | nil => simp [pickBest] at h
  | cons e0 es =>
      simp only [pickBest, Option.some.injEq] at h
      have := pickAux_get? tq (e0 :: es) es 1 (0, e0) (by simp)
        (by intro k; simp [Nat.add_comm 1 k])
      rw [h] at this
      exact this

theorem pickBest_opt (tq : List String) (store : List KnowledgeEntry) (i : Nat)
    (e : KnowledgeEntry) (h : pickBest tq store = some (i, e)) :
    ∀ e' ∈ store, lexLe (key tq e') (key tq e) := by
  cases store with
  | nil => simp [pickBest] at h
  | cons e0 es =>
      simp only [pickBest, Option.some.injEq] at h
      obtain ⟨hc, hl⟩ := pickAux_opt tq es 1 (0, e0)
      rw [h] at hc hl
      intro e' he'
      rcases List.mem_cons.mp he' with rfl | he'
      · exact hc
      · exact hl e' he'

theorem pickBest_isSome (tq : List String) (store : List KnowledgeEntry)
    (h : store ≠ []) : ∃ i e, pickBest tq store = some (i, e) := by
  cases store with
  | nil => exact absurd rfl h
  | cons e0 es => exact ⟨_, _, rfl⟩

/-! ### Score bounds -/

theorem entryScore_nonneg (tq : List String) (e : KnowledgeEntry) :
    0 ≤ entryScore tq e := by
  unfold entryScore
  by_cases h : (tokens e.normalizedQuestion).length = 0
  · simp [h]
  · simp only [h, if_false]
    rw [Rat.divInt_eq_div]
    push_cast
    positivity

theorem entryScore_le_one (tq : List String) (e : KnowledgeEntry) :
    entryScore tq e ≤ 1 := by
  unfold entryScore
  by_cases h : (tokens e.normalizedQuestion).length = 0
  · simp [h]
  · simp only [h, if_false]
    have hpos : (0 : ℚ) < ((tokens e.normalizedQuestion).length : ℚ) := by
      exact_mod_cast Nat.pos_of_ne_zero h
    rw [Rat.divInt_eq_div]
    push_cast
    rw [div_le_one hpos]
    have := List.length_filter_le (fun t => decide (t ∈ tq)) (tokens e.normalizedQuestion)
    exact_mod_cast this

theorem entryScore_self (tq : List String) (e : KnowledgeEntry)
    (hq : tokens e.normalizedQuestion = tq) (hne : tq ≠ []) :
    entryScore tq e = 1 := by
  unfold entryScore
  rw [hq]
  have hfull : tq.filter (fun t => decide (t ∈ tq)) = tq := by
    apply List.filter_eq_self.mpr
    intro a ha
    simpa using ha
  have hlen : tq.length ≠ 0 := by
    intro h
    exact hne (List.eq_nil_of_length_eq_zero h)
  simp only [hlen, if_false, hfull]
  rw [Rat.divInt_eq_div]
  push_cast
  rw [div_self]
  exact_mod_cast hlen

/-! ### Lookup characterization -/

theorem lookup_hit_iff (store : List KnowledgeEntry) (q : String) :
    (lookup store q).1 ≠ .miss ↔
      ∃ e ∈ store, (1 : ℚ)/2 ≤ entryScore (tokens (normalize q)) e := by
  constructor
  · intro h
    unfold lookup at h
    split at h
    · simp at h
    · rename_i i e hp
      split at h
      · rename_i hs
        rw [matchThreshold_eq] at hs
        exact ⟨e, List.get?_mem (pickBest_get? _ _ _ _ hp), hs⟩
      · simp at h
  · rintro ⟨e', he', hs'⟩
    unfold lookup
    split
    · rename_i hp
      exfalso
      cases store with
      | nil => cases he'
      | cons a l => simp [pickBest] at hp
    · rename_i i e hp
      split
      · simp
      · rename_i hs
        exfalso
        have hopt := pickBest_opt _ _ _ _ hp e' he'
        have hle := lexLe_score hopt
        simp only [key] at hle
        rw [matchThreshold_eq] at hs
        exact hs (le_trans hs' hle)

theorem lookup_hit_spec (store : List KnowledgeEntry) (q : String)
    (e : KnowledgeEntry) (s : ℚ) (store' : List KnowledgeEntry)
    (h : lookup store q = (.hit e s, store')) :
    ∃ i, store.get? i = some e ∧
      s = entryScore (tokens (normalize q)) e ∧
      (1 : ℚ)/2 ≤ s ∧
      (∀ e' ∈ store, lexLe (key (tokens (normalize q)) e')
        (key (tokens (normalize q)) e)) ∧
      store' = store.set i { e with timesUsed := e.timesUsed + 1 } := by
  unfold lookup at h
  split at h
  · simp at h
  · rename_i i e₀ hp
    split at h
    · rename_i hs
      have h1 := congrArg Prod.fst h
      have h2 := congrArg Prod.snd h
      simp only at h1 h2
      cases h1
      rw [matchThreshold_eq] at hs
      exact ⟨i, pickBest_get? _ _ _ _ hp, rfl, hs,
        pickBest_opt _ _ _ _ hp, h2.symm⟩
    · simp at h

theorem lookup_miss_frame (store : List KnowledgeEntry) (q : String)
    (h : ∀ e ∈ store, entryScore (tokens (normalize q)) e < (1 : ℚ)/2) :
    lookup store q = (.miss, store) := by
  unfold lookup
  split
  · rfl
  · rename_i i e hp
    have hmem : e ∈ store := List.get?_mem (pickBest_get? _ _ _ _ hp)
    rw [if_neg (by rw [matchThreshold_eq]; exact not_le_of_lt (h e hmem))]

/-! ### Upsert lemmas -/

theorem upsert_mem (store : List KnowledgeEntry) (q a : String) (src : Source)
    (now : Nat) (x : KnowledgeEntry) (hx : x ∈ upsert store q a src now) :
    (x.normalizedQuestion = normalize q ∧ x.answer = a ∧ x.updatedAt = now) ∨
      x ∈ store := by
  unfold upsert at hx
  by_cases hex : store.any (fun e => decide (e.normalizedQuestion = normalize q))
  · rw [if_pos hex] at hx
    obtain ⟨e, he, hfe⟩ := List.mem_map.mp hx
    by_cases hk : e.normalizedQuestion = normalize q
    · left
      rw [if_pos hk] at hfe
      subst hfe
      exact ⟨hk, rfl, rfl⟩
    · right
      rw [if_neg hk] at hfe
      subst hfe
      exact he
  · rw [if_neg hex] at hx
    rcases List.mem_append.mp hx with hx | hx
    · right; exact hx
    · left
      simp only [List.mem_singleton] at hx
      subst hx
      exact ⟨rfl, rfl, rfl⟩

theorem upsert_mem_updated (store : List KnowledgeEntry) (q a : String) (src : Source)
    (now : Nat) (x : KnowledgeEntry) (hx : x ∈ upsert store q a src now)
    (hold : ∀ e ∈ store, e.updatedAt < now) (hnow : x.updatedAt = now) :
    x.normalizedQuestion = normalize q ∧ x.answer = a := by
  rcases upsert_mem store q a src now x hx with ⟨h1, h2, _⟩ | hmem
  · exact ⟨h1, h2⟩
  · exact absurd hnow (by have := hold x hmem; omega)

theorem upsert_has_key (store : List KnowledgeEntry) (q a : String) (src : Source)
    (now : Nat) :
    ∃ x ∈ upsert store q a src now,
      x.normalizedQuestion = normalize q ∧ x.answer = a ∧ x.updatedAt = now := by
  unfold upsert
  by_cases hex : store.any (fun e => decide (e.normalizedQuestion = normalize q))
  · rw [if_pos hex]
    obtain ⟨e, he, hke⟩ := List.any_eq_true.mp hex
    have hk : e.normalizedQuestion = normalize q := by simpa using hke
    refine ⟨{ e with answer := a, source := src, updatedAt := now }, ?_, hk, rfl, rfl⟩
    exact List.mem_map.mpr ⟨e, he, by rw [if_pos hk]⟩
  · rw [if_neg hex]
    exact ⟨⟨normalize q, a, src, 0, now, now⟩, by simp, rfl, rfl, rfl⟩

theorem upsert_ne_nil (store : List KnowledgeEntry) (q a : String) (src : Source)
    (now : Nat) : upsert store q a src now ≠ [] := by
  intro h
  obtain ⟨x, hx, -⟩ := upsert_has_key store q a src now
  rw [h] at hx
  cases hx

/-! ### Escalation registry -/

/-- Modelled from the spec: stored state of an escalation request (§3).
`TimedOut` is deliberately absent: it is a coordinator-local verdict, not a
persisted state — a pending request past its budget is still stored as
`Pending`. -/
inductive EscState where
  | Pending
  | Resolved
  | Rejected
deriving DecidableEq

/-- Modelled from the spec: an escalation request record (§3
EscalationRequest), including the separately persisted `notified` flag used
by the late-response monitor (§4.4, §6). -/
structure EscalationRequest where
  id : Nat
  question : String
  callerIdentity : Option String
  context : String
  state : EscState
  answer : Option String
  rejectionReason : Option String
  createdAt : Nat
  resolvedAt : Option Nat
  notified : Bool
deriving DecidableEq

/-- Registry/store errors (§7 taxonomy, the part reachable in this model). -/
inductive RegError where
  | NotFound
  | InvalidState
deriving DecidableEq

/-- The shared mutable state of the workflow: the escalation registry and the
knowledge store (§5: "the registry and knowledge store are the only shared
mutable resources"). -/
structure Sys where
  registry : List EscalationRequest
  store : List KnowledgeEntry
deriving DecidableEq

/-- Modelled from the spec: `get(id) → EscalationRequest | not-found`
(§4.2). -/
def getReq (reg : List EscalationRequest) (i : Nat) : Option EscalationRequest :=
  reg.find? (fun r => decide (r.id = i))

/-- Modelled from the spec: `create(question, callerIdentity, context)` with
`state = Pending`, server-assigned id, `createdAt = now` (§4.2). -/
def createReq (sys : Sys) (newId : Nat) (q : String) (caller : Option String)
    (ctx : String) (now : Nat) : Sys :=
  { sys with registry :=
      sys.registry ++ [⟨newId, q, caller, ctx, .Pending, none, none, now, none, false⟩] }

/-- Modelled from the spec: `resolve(id, answer, operatorIdentity)` (§4.2):
fails with `InvalidState` on an already `Resolved`/`Rejected` request; on
success sets `state = Resolved`, `answer`, `resolvedAt = now` and — as a side
effect owned by the registry — calls
`KnowledgeStore.upsert(question, answer, source=operator)`. -/
def resolve (sys : Sys) (i : Nat) (a : String) (_operatorIdentity : String)
    (now : Nat) : Except RegError Sys :=
  match getReq sys.registry i with
  | none => .error .NotFound
  | some r =>
      match r.state with
      | .Pending =>
          .ok { registry := sys.registry.map (fun r' =>
                  if r'.id = i then
                    { r' with state := .Resolved, answer := some a, resolvedAt := some now }
                  else r'),
                store := upsert sys.store r.question a .operator now }
      | _ => .error .InvalidState

/-- Modelled from the spec: `reject(id, reason)` (§4.2): same state-guard as
`resolve`; sets `state = Rejected` and the rejection reason; does not touch
the KnowledgeStore. -/
def reject (sys : Sys) (i : Nat) (reason : String) : Except RegError Sys :=
  match getReq sys.registry i with
  | none => .error .NotFound
  | some r =>
      match r.state with
      | .Pending =>
          .ok { sys with registry := sys.registry.map (fun r' =>
                  if r'.id = i then
                    { r' with state := .Rejected, rejectionReason := some reason }
                  else r') }
      | _ => .error .InvalidState

/-! ### getReq lemmas -/

theorem getReq_id {reg : List EscalationRequest} {i : Nat} {r : EscalationRequest}
    (h : getReq reg i = some r) : r.id = i := by
  have := List.find?_some h
  simpa using this

theorem getReq_map (g : EscalationRequest → EscalationRequest)
    (hg : ∀ r, (g r).id = r.id) (reg : List EscalationRequest) (i : Nat) :
    getReq (reg.map g) i = (getReq reg i).map g := by
  induction reg with
  | nil => rfl
  | cons r rs ih =>
      unfold getReq
      by_cases hi : r.id = i
      · rw [List.map_cons, List.find?_cons_of_pos, List.find?_cons_of_pos]
        · rfl
        · simpa using hi
        · simpa [hg r] using hi
      · rw [List.map_cons, List.find?_cons_of_neg, List.find?_cons_of_neg]
        · exact ih
        · simpa using hi
        · simpa [hg r] using hi

theorem getReq_map_updater (f : EscalationRequest → EscalationRequest)
    (hf : ∀ r, (f r).id = r.id) (reg : List EscalationRequest) (i j : Nat)
    (hne : j ≠ i) :
    getReq (reg.map (fun r' => if r'.id = i then f r' else r')) j = getReq reg j := by
  rw [getReq_map (fun r' => if r'.id = i then f r' else r')
    (by intro r; by_cases h : r.id = i <;> simp [h, hf])]
  rcases hj : getReq reg j with _ | r
  · rfl
  · have hid := getReq_id hj
    simp [hid, hne]

theorem getReq_map_self (f : EscalationRequest → EscalationRequest)
    (hf : ∀ r, (f r).id = r.id) (reg : List EscalationRequest) (i : Nat)
    (r : EscalationRequest) (h : getReq reg i = some r) :
    getReq (reg.map (fun r' => if r'.id = i then f r' else r')) i = some (f r) := by
  rw [getReq_map (fun r' => if r'.id = i then f r' else r')
    (by intro r'; by_cases hh : r'.id = i <;> simp [hh, hf])]
  rw [h]
  have hid := getReq_id h
  simp [hid]

/-! ### External operator events and the polling coordinator -/

/-- Modelled from the spec (§6): an inbound operator action, external to the
workflow — `resolve(requestId, answer)` or `reject(requestId, reason)`. -/
inductive OpEvent where
  | resolveEv (id : Nat) (answer : String) (operatorIdentity : String)
  | rejectEv (id : Nat) (reason : String)
deriving DecidableEq

/-- The request id an operator event targets. -/
def evTarget : OpEvent → Nat
  | .resolveEv i _ _ => i
  | .rejectEv i _ => i

/-- Apply one operator event to the system at time `now`; a failing
resolve/reject (NotFound or InvalidState, §7) leaves the system unchanged. -/
def applyEvent (sys : Sys) (now : Nat) : OpEvent → Sys
  | .resolveEv i a op =>
      match resolve sys i a op now with
      | .ok sys' => sys'
      | .error _ => sys
  | .rejectEv i reason =>
      match reject sys i reason with
      | .ok sys' => sys'
      | .error _ => sys

/-- Run a timestamped list of operator events in order. -/
def runEvents (sys : Sys) : List (Nat × OpEvent) → Sys
  | [] => sys
  | (t, e) :: rest => runEvents (applyEvent sys t e) rest

/-- The system state observed at time `t`: the initial state with every
scheduled operator event of timestamp at most `t` applied. -/
def sysAt (sys0 : Sys) (sched : List (Nat × OpEvent)) (t : Nat) : Sys :=
  runEvents sys0 (sched.filter (fun p => decide (p.1 ≤ t)))

/-- Modelled from the spec: the three caller-facing outcomes of the bounded
wait, `Answered(answer) | Rejected(reason) | TimedOut` (§4.3). -/
inductive AwaitResult where
  | Answered (answer : String)
  | Rejected (reason : String)
  | TimedOut
deriving DecidableEq

/-- Verdict of a single poll of the registry: `some` outcome as soon as the
request has left `Pending`, `none` while it is still pending (§4.3). -/
def pollVerdict : Option EscalationRequest → Option AwaitResult
  | some r =>
      match r.state with
      | .Resolved => some (.Answered (r.answer.getD ""))
      | .Rejected => some (.Rejected (r.rejectionReason.getD ""))
      | .Pending => none
  | none => none

/-- Modelled from the spec (§4.3): the coordinator's polling loop — read the
request at the current instant; if it has left `Pending` return at once,
otherwise wait one poll interval and retry while poll budget remains; on
exhaustion return `TimedOut`.  Returns the outcome together with the instant
of the final poll. -/
def awaitAux (view : Nat → Option EscalationRequest) (interval : Nat) :
    Nat → Nat → AwaitResult × Nat
  | 0, t => ((pollVerdict (view t)).getD .TimedOut, t)
  | fuel + 1, t =>
      match pollVerdict (view t) with
      | some res => (res, t)
      | none => awaitAux view interval fuel (t + interval)

/-- Modelled from the spec: `awaitAnswer(requestId, budget)` (§4.3) —
repeatedly poll `EscalationRegistry.get(requestId)` at a fixed interval
(design value 2 time units against a 60-unit budget, i.e. up to 30 polls)
until the state leaves `Pending` or the budget is exhausted.  The registry
evolves only through the external operator schedule; the coordinator itself
never writes. -/
def awaitAnswer (sys0 : Sys) (sched : List (Nat × OpEvent)) (i start budget interval : Nat) :
    AwaitResult × Nat :=
  awaitAux (fun t => getReq (sysAt sys0 sched t).registry i) interval
    (budget / interval) start

/-! ### Late-response monitor -/

/-- A deferred caller notification emitted by the monitor (§6: outbound
`notify(callerIdentity, question, answer)`). -/
structure CallerNote where
  requestId : Nat
  callerIdentity : Option String
  question : String
  answer : String
deriving DecidableEq

/-- Modelled from the spec (§4.4 step 2): a request qualifies for the
late-answer path when it is `Resolved`, its caller-facing wait had already
expired when the answer arrived (resolution later than `createdAt + budget`)
and it has not been notified yet. -/
def lateCond (budget : Nat) (r : EscalationRequest) : Bool :=
  decide (r.state = .Resolved) && !r.notified &&
    (match r.resolvedAt with
     | some rt => decide (r.createdAt + budget < rt)
     | none => false)

/-- Modelled from the spec (§4.4): one cycle of the LateResponseMonitor —
fire the caller notification for every newly-resolved-but-already-expired
request not yet flagged, and mark each such request `notified = true` in the
same cycle.  The monitor touches nothing else: it never writes the
knowledge store. -/
def monitorCycle (budget : Nat) (sys : Sys) : Sys × List CallerNote :=
  ({ sys with registry := sys.registry.map (fun r =>
       if lateCond budget r then { r with notified := true } else r) },
   (sys.registry.filter (lateCond budget)).map (fun r =>
     ⟨r.id, r.callerIdentity, r.question, r.answer.getD ""⟩))

/-- A step of the overall system history: an external operator action, or one
monitor cycle. -/
inductive Step where
  | ev (t : Nat) (e : OpEvent)
  | monitor
deriving DecidableEq

/-- Run a list of steps, collecting every caller notification fired by the
monitor along the way. -/
def runSteps (budget : Nat) : Sys → List Step → Sys × List CallerNote
  | sys, [] => (sys, [])
  | sys, .ev t e :: rest => runSteps budget (applyEvent sys t e) rest
  | sys, .monitor :: rest =>
      ((runSteps budget (monitorCycle budget sys).1 rest).1,
       (monitorCycle budget sys).2 ++ (runSteps budget (monitorCycle budget sys).1 rest).2)

/-- Number of notifications fired for a given request id. -/
def noteCount (ns : List CallerNote) (i : Nat) : Nat :=
  (ns.filter (fun n => decide (n.requestId = i))).length

/-! ### Frame lemmas for events -/

theorem resolve_registry_frame (sys : Sys) (i : Nat) (a op : String) (now : Nat)
    (sys' : Sys) (h : resolve sys i a op now = .ok sys') (j : Nat) (hne : j ≠ i) :
    getReq sys'.registry j = getReq sys.registry j := by
  unfold resolve at h
  split at h
  · cases h
  · rename_i r hr
    split at h
    · cases h
      exact getReq_map_updater _ (by intro r'; rfl) _ _ _ hne
    · cases h

theorem reject_registry_frame (sys : Sys) (i : Nat) (reason : String)
    (sys' : Sys) (h : reject sys i reason = .ok sys') (j : Nat) (hne : j ≠ i) :
    getReq sys'.registry j = getReq sys.registry j := by
  unfold reject at h
  split at h
  · cases h
  · rename_i r hr
    split at h
    · cases h
      exact getReq_map_updater _ (by intro r'; rfl) _ _ _ hne
    · cases h

theorem applyEvent_frame (sys : Sys) (t : Nat) (e : OpEvent) (j : Nat)
    (hne : evTarget e ≠ j) :
    getReq (applyEvent sys t e).registry j = getReq sys.registry j := by
  cases e with
  | resolveEv i a op =>
      simp only [applyEvent]
      rcases hres : resolve sys i a op t with err | sys'
      · rfl
      · exact resolve_registry_frame sys i a op t sys' hres j
          (by simpa [evTarget] using Ne.symm hne)
  | rejectEv i reason =>
      simp only [applyEvent]
      rcases hres : reject sys i reason with err | sys'
      · rfl
      · exact reject_registry_frame sys i reason sys' hres j
          (by simpa [evTarget] using Ne.symm hne)

theorem runEvents_frame (j : Nat) :
    ∀ (evs : List (Nat × OpEvent)) (sys : Sys),
      (∀ p ∈ evs, evTarget p.2 ≠ j) →
      getReq (runEvents sys evs).registry j = getReq sys.registry j := by
  intro evs
  induction evs with
  | nil => intro sys _; rfl
  | cons p rest ih =>
      intro sys hall
      rcases p with ⟨t, e⟩
      simp only [runEvents]
      rw [ih _ (fun p hp => hall p (List.mem_cons_of_mem _ hp))]
      exact applyEvent_frame sys t e j (hall (t, e) (List.mem_cons_self _ _))

theorem sysAt_frame (sys0 : Sys) (sched : List (Nat × OpEvent)) (j T : Nat)
    (hall : ∀ p ∈ sched, p.1 ≤ T → evTarget p.2 ≠ j) (t : Nat) (ht : t ≤ T) :
    getReq (sysAt sys0 sched t).registry j = getReq sys0.registry j := by
  unfold sysAt
  apply runEvents_frame
  intro p hp
  have := List.of_mem_filter hp
  exact hall p (List.mem_of_mem_filter hp) (le_trans (by simpa using this) ht)

/-! ### Polling-loop lemmas -/

theorem awaitAux_timeout (view : Nat → Option EscalationRequest) (interval : Nat) :
    ∀ (fuel t : Nat),
      (∀ k ≤ fuel, pollVerdict (view (t + k * interval)) = none) →
      awaitAux view interval fuel t = (.TimedOut, t + fuel * interval) := by
  intro fuel
  induction fuel with
  | zero =>
      intro t h
      have h0 := h 0 (le_refl 0)
      simp only [Nat.zero_mul, Nat.add_zero] at h0 ⊢
      simp [awaitAux, h0]
  | succ fuel ih =>
      intro t h
      have h0 := h 0 (Nat.zero_le _)
      simp only [Nat.zero_mul, Nat.add_zero] at h0
      simp only [awaitAux, h0]
      have := ih (t + interval) (by
        intro k hk
        have := h (k + 1) (by omega)
        have harith : t + (k + 1) * interval = t + interval + k * interval := by ring
        rwa [harith] at this)
      rw [this]
      have : t + interval + fuel * interval = t + (fuel + 1) * interval := by ring
      rw [this]

theorem awaitAux_rejected (view : Nat → Option EscalationRequest) (interval : Nat)
    (fuel t : Nat) (r : EscalationRequest) (hv : view t = some r)
    (hr : r.state = .Rejected) :
    awaitAux view interval fuel t = (.Rejected (r.rejectionReason.getD ""), t) := by
  have hverdict : pollVerdict (view t) = some (.Rejected (r.rejectionReason.getD "")) := by
    rw [hv]
    simp [pollVerdict, hr]
  cases fuel with
  | zero => simp [awaitAux, hverdict]
  | succ fuel => simp [awaitAux, hverdict]

theorem awaitAux_shape (view : Nat → Option EscalationRequest) (interval : Nat)
    (fuel t : Nat) :
    (∃ a, (awaitAux view interval fuel t).1 = .Answered a) ∨
    (∃ rr, (awaitAux view interval fuel t).1 = .Rejected rr) ∨
    (awaitAux view interval fuel t).1 = .TimedOut := by
  rcases h : (awaitAux view interval fuel t).1 with a | rr | _
  · exact Or.inl ⟨a, rfl⟩
  · exact Or.inr (Or.inl ⟨rr, rfl⟩)
  · exact Or.inr (Or.inr rfl)

/-! ### Claim theorems for the coordinator -/

/-- C1: if no resolve or reject occurs on request R within the budget after
`awaitAnswer(R, budget)` starts, the wait returns `TimedOut`, and the
registry is untouched by the timed-out wait: R's stored record at the end of
the window is exactly the record at the start, still `Pending`, so R remains
eligible for late resolution.  (The coordinator is read-only by
construction: the registry evolves only through the operator schedule.) -/
theorem C1_timeout_no_mutation (sys0 : Sys) (sched : List (Nat × OpEvent))
    (i start budget interval : Nat) (r : EscalationRequest)
    (hr : getReq sys0.registry i = some r) (hp : r.state = .Pending)
    (hev : ∀ p ∈ sched, p.1 ≤ start + budget → evTarget p.2 ≠ i) :
    (awaitAnswer sys0 sched i start budget interval).1 = .TimedOut ∧
      getReq (sysAt sys0 sched (start + budget)).registry i = some r := by
  have hview : ∀ t ≤ start + budget,
      getReq (sysAt sys0 sched t).registry i = some r := by
    intro t ht
    rw [sysAt_frame sys0 sched i (start + budget) hev t ht]
    exact hr
  constructor
  · unfold awaitAnswer
    rw [awaitAux_timeout]
    intro k hk
    have hkle : k * interval ≤ budget := by
      calc k * interval ≤ (budget / interval) * interval :=
            Nat.mul_le_mul_right interval hk
        _ ≤ budget := Nat.div_mul_le_self budget interval
    rw [hview (start + k * interval) (by omega)]
    simp [pollVerdict, hp]
  · exact hview (start + budget) (le_refl _)

/-- C1 witness: a single pending request, an empty operator schedule, and the
design parameters budget = 60, poll interval = 2. -/
theorem C1_timeout_no_mutation_witness :
    (awaitAnswer ⟨[⟨0, "q", none, "", .Pending, none, none, 0, none, false⟩], []⟩
        [] 0 0 60 2).1 = .TimedOut ∧
      getReq (sysAt ⟨[⟨0, "q", none, "", .Pending, none, none, 0, none, false⟩], []⟩
        [] 60).registry 0 =
        some ⟨0, "q", none, "", .Pending, none, none, 0, none, false⟩ :=
  C1_timeout_no_mutation _ [] 0 0 60 2 _ rfl rfl (by intro p hp; cases hp)

/-- C8: `awaitAnswer` has exactly the three outcomes `Answered`, `Rejected`,
`TimedOut`; and whenever a poll observes the request in the `Rejected`
state, the wait returns `Rejected(reason)` at that very poll instant, with
no further polling, for every amount of remaining budget. -/
theorem C8_three_outcomes_rejected_immediate :
    (∀ (sys0 : Sys) (sched : List (Nat × OpEvent)) (i start budget interval : Nat),
      (∃ a, (awaitAnswer sys0 sched i start budget interval).1 = .Answered a) ∨
      (∃ rr, (awaitAnswer sys0 sched i start budget interval).1 = .Rejected rr) ∨
      (awaitAnswer sys0 sched i start budget interval).1 = .TimedOut) ∧
    (∀ (view : Nat → Option EscalationRequest) (interval fuel t : Nat)
        (r : EscalationRequest), view t = some r → r.state = .Rejected →
      awaitAux view interval fuel t = (.Rejected (r.rejectionReason.getD ""), t)) := by
  constructor
  · intro sys0 sched i start budget interval
    exact awaitAux_shape _ _ _ _
  · intro view interval fuel t r hv hr
    exact awaitAux_rejected view interval fuel t r hv hr

/-- C8 witness: a request already rejected at the first poll is returned
immediately at the poll instant with its reason, with the full poll budget
remaining untouched. -/
theorem C8_three_outcomes_rejected_immediate_witness :
    awaitAux (fun _ => some ⟨0, "q", none, "", .Rejected, none, some "spam", 0, none, false⟩)
        2 30 5 =
      (.Rejected "spam", 5) :=
  C8_three_outcomes_rejected_immediate.2
    (fun _ => some ⟨0, "q", none, "", .Rejected, none, some "spam", 0, none, false⟩)
    2 30 5 _ rfl rfl

/-! ### Resolve/reject characterization -/

theorem resolve_pending_ok (sys : Sys) (i : Nat) (r : EscalationRequest)
    (a op : String) (now : Nat) (hr : getReq sys.registry i = some r)
    (hp : r.state = .Pending) :
    resolve sys i a op now = .ok
      ⟨sys.registry.map (fun r' => if r'.id = i then
          { r' with state := .Resolved, answer := some a, resolvedAt := some now } else r'),
        upsert sys.store r.question a .operator now⟩ := by
  simp only [resolve, hr, hp]

theorem reject_pending_ok (sys : Sys) (i : Nat) (r : EscalationRequest)
    (reason : String) (hr : getReq sys.registry i = some r)
    (hp : r.state = .Pending) :
    reject sys i reason = .ok
      { sys with registry := sys.registry.map (fun r' => if r'.id = i then
          { r' with state := .Rejected, rejectionReason := some reason } else r') } := by
  simp only [reject, hr, hp]

theorem resolve_terminal_error (sys : Sys) (i : Nat) (r : EscalationRequest)
    (a op : String) (now : Nat) (hr : getReq sys.registry i = some r)
    (hs : r.state ≠ .Pending) :
    resolve sys i a op now = .error .InvalidState := by
  cases hstate : r.state with
  | Pending => exact absurd hstate hs
  | Resolved => simp only [resolve, hr, hstate]
  | Rejected => simp only [resolve, hr, hstate]

theorem reject_terminal_error (sys : Sys) (i : Nat) (r : EscalationRequest)
    (reason : String) (hr : getReq sys.registry i = some r)
    (hs : r.state ≠ .Pending) :
    reject sys i reason = .error .InvalidState := by
  cases hstate : r.state with
  | Pending => exact absurd hstate hs
  | Resolved => simp only [reject, hr, hstate]
  | Rejected => simp only [reject, hr, hstate]

theorem applyEvent_terminal (sys : Sys) (t : Nat) (e : OpEvent) (i : Nat)
    (r : EscalationRequest) (hr : getReq sys.registry i = some r)
    (hs : r.state ≠ .Pending) :
    getReq (applyEvent sys t e).registry i = some r := by
  by_cases htar : evTarget e = i
  · cases e with
    | resolveEv j a op =>
        have hj : j = i := htar
        subst hj
        simp only [applyEvent, resolve_terminal_error sys j r a op t hr hs]
        exact hr
    | rejectEv j reason =>
        have hj : j = i := htar
        subst hj
        simp only [applyEvent, reject_terminal_error sys j r reason hr hs]
        exact hr
  · rw [applyEvent_frame sys t e i htar]
    exact hr

theorem monitor_getReq (budget : Nat) (sys : Sys) (i : Nat) :
    getReq (monitorCycle budget sys).1.registry i =
      (getReq sys.registry i).map
        (fun r => if lateCond budget r then { r with notified := true } else r) := by
  unfold monitorCycle
  exact getReq_map _ (by intro r; by_cases h : lateCond budget r <;> simp [h]) _ _

theorem terminal_persists (budget : Nat) :
    ∀ (steps : List Step) (sys : Sys) (i : Nat) (r : EscalationRequest),
      getReq sys.registry i = some r → r.state ≠ .Pending →
      ∃ b, getReq (runSteps budget sys steps).1.registry i =
        some { r with notified := b } := by
  intro steps
  induction steps with
  | nil =>
      intro sys i r hr _
      exact ⟨r.notified, by simpa [runSteps] using hr⟩
  | cons step rest ih =>
      intro sys i r hr hs
      cases step with
      | ev t e =>
          exact ih (applyEvent sys t e) i r (applyEvent_terminal sys t e i r hr hs) hs
      | monitor =>
          by_cases hl : lateCond budget r
          · have hr' : getReq (monitorCycle budget sys).1.registry i =
                some { r with notified := true } := by
              rw [monitor_getReq, hr]
              simp [hl]
            obtain ⟨b, hb⟩ := ih (monitorCycle budget sys).1 i
              { r with notified := true } hr' (by simpa using hs)
            exact ⟨b, by simpa [runSteps] using hb⟩
          · have hr' : getReq (monitorCycle budget sys).1.registry i = some r := by
              rw [monitor_getReq, hr]
              simp [hl]
            obtain ⟨b, hb⟩ := ih (monitorCycle budget sys).1 i r hr' hs
            exact ⟨b, by simpa [runSteps] using hb⟩

/-- C3: resolve and reject fail with `InvalidState` on a request whose state
is already `Resolved` or `Rejected`, and the failing call leaves the whole
system untouched; moreover a terminal state is final: across any further
history of operator actions and monitor cycles the request keeps its state,
answer, rejection reason and every other field except the monitor-owned
`notified` flag. -/
theorem C3_terminal_states_final :
    (∀ (sys : Sys) (i : Nat) (r : EscalationRequest) (a op reason : String) (now : Nat),
      getReq sys.registry i = some r →
      (r.state = .Resolved ∨ r.state = .Rejected) →
      resolve sys i a op now = .error .InvalidState ∧
      reject sys i reason = .error .InvalidState ∧
      applyEvent sys now (.resolveEv i a op) = sys ∧
      applyEvent sys now (.rejectEv i reason) = sys) ∧
    (∀ (budget : Nat) (steps : List Step) (sys : Sys) (i : Nat) (r : EscalationRequest),
      getReq sys.registry i = some r → r.state ≠ .Pending →
      ∃ b, getReq (runSteps budget sys steps).1.registry i =
        some { r with notified := b }) := by
  constructor
  · intro sys i r a op reason now hr hterm
    have hs : r.state ≠ .Pending := by
      rcases hterm with h | h <;> rw [h] <;> intro hc <;> cases hc
    refine ⟨resolve_terminal_error sys i r a op now hr hs,
      reject_terminal_error sys i r reason hr hs, ?_, ?_⟩
    · simp only [applyEvent, resolve_terminal_error sys i r a op now hr hs]
    · simp only [applyEvent, reject_terminal_error sys i r reason hr hs]
  · exact fun budget steps => terminal_persists budget steps

/-- C3 witness: a second resolve and a reject on an already resolved request
both fail with `InvalidState` and leave the system unchanged, and the
resolved state survives a later operator event and a monitor cycle. -/
theorem C3_terminal_states_final_witness :
    (resolve ⟨[⟨0, "q", none, "", .Resolved, some "a", none, 0, some 5, false⟩], []⟩
        0 "b" "op" 9 = .error .InvalidState ∧
      reject ⟨[⟨0, "q", none, "", .Resolved, some "a", none, 0, some 5, false⟩], []⟩
        0 "no" = .error .InvalidState ∧
      applyEvent ⟨[⟨0, "q", none, "", .Resolved, some "a", none, 0, some 5, false⟩], []⟩
        9 (.resolveEv 0 "b" "op") =
        ⟨[⟨0, "q", none, "", .Resolved, some "a", none, 0, some 5, false⟩], []⟩ ∧
      applyEvent ⟨[⟨0, "q", none, "", .Resolved, some "a", none, 0, some 5, false⟩], []⟩
        9 (.rejectEv 0 "no") =
        ⟨[⟨0, "q", none, "", .Resolved, some "a", none, 0, some 5, false⟩], []⟩) ∧
    (∃ b, getReq (runSteps 60
        ⟨[⟨0, "q", none, "", .Resolved, some "a", none, 0, some 5, false⟩], []⟩
        [.ev 9 (.resolveEv 0 "b" "op"), .monitor]).1.registry 0 =
      some { (⟨0, "q", none, "", .Resolved, some "a", none, 0, some 5, false⟩ :
        EscalationRequest) with notified := b }) :=
  ⟨C3_terminal_states_final.1 _ 0 _ "b" "op" "no" 9 rfl (Or.inl rfl),
    C3_terminal_states_final.2 60 [.ev 9 (.resolveEv 0 "b" "op"), .monitor] _ 0 _ rfl
      (by intro h; cases h)⟩

theorem resolve_pending_spec (sys : Sys) (i : Nat) (r : EscalationRequest)
    (a op : String) (now : Nat)
    (hr : getReq sys.registry i = some r) (hp : r.state = .Pending) :
    ∃ sys', resolve sys i a op now = .ok sys' ∧
      getReq sys'.registry i =
        some { r with state := .Resolved, answer := some a, resolvedAt := some now } ∧
      sys'.store = upsert sys.store r.question a .operator now ∧
      ∀ j, j ≠ i → getReq sys'.registry j = getReq sys.registry j := by
  refine ⟨_, resolve_pending_ok sys i r a op now hr hp, ?_, rfl, ?_⟩
  · exact getReq_map_self _ (by intro r'; rfl) _ _ _ hr
  · intro j hj
    exact getReq_map_updater _ (by intro r'; rfl) _ _ _ hj

/-- C4: on a pending request, `resolve` succeeds, sets
`state = Resolved`, `answer`, `resolvedAt = now`, leaves every other request
untouched, and performs exactly one knowledge-store learning write —
`upsert(question, answer, source = operator)`; `reject` succeeds on a
pending request and never touches the knowledge store.  Hence the learning
write happens exactly when `resolve` succeeds. -/
theorem C4_resolve_learns_reject_does_not (sys : Sys) (i : Nat)
    (r : EscalationRequest) (a op reason : String) (now : Nat)
    (hr : getReq sys.registry i = some r) (hp : r.state = .Pending) :
    (∃ sys', resolve sys i a op now = .ok sys' ∧
      getReq sys'.registry i =
        some { r with state := .Resolved, answer := some a, resolvedAt := some now } ∧
      sys'.store = upsert sys.store r.question a .operator now ∧
      ∀ j, j ≠ i → getReq sys'.registry j = getReq sys.registry j) ∧
    (∃ sys'', reject sys i reason = .ok sys'' ∧
      sys''.store = sys.store ∧
      getReq sys''.registry i =
        some { r with state := .Rejected, rejectionReason := some reason }) := by
  constructor
  · exact resolve_pending_spec sys i r a op now hr hp
  · refine ⟨_, reject_pending_ok sys i r reason hr hp, rfl, ?_⟩
    exact getReq_map_self _ (by intro r'; rfl) _ _ _ hr

/-- C4 witness: resolving a pending request stores the answer and writes the
learned entry; rejecting a pending request leaves the store empty. -/
theorem C4_resolve_learns_reject_does_not_witness :
    (∃ sys', resolve ⟨[⟨0, "do you ship", none, "", .Pending, none, none, 0, none, false⟩], []⟩
        0 "yes" "op" 5 = .ok sys' ∧
      getReq sys'.registry 0 =
        some { (⟨0, "do you ship", none, "", .Pending, none, none, 0, none, false⟩ :
          EscalationRequest) with
            state := .Resolved, answer := some "yes", resolvedAt := some 5 } ∧
      sys'.store = upsert [] "do you ship" "yes" .operator 5 ∧
      ∀ j, j ≠ 0 → getReq sys'.registry j =
        getReq [⟨0, "do you ship", none, "", .Pending, none, none, 0, none, false⟩] j) ∧
    (∃ sys'', reject ⟨[⟨0, "do you ship", none, "", .Pending, none, none, 0, none, false⟩], []⟩
        0 "spam" = .ok sys'' ∧
      sys''.store = ([] : List KnowledgeEntry) ∧
      getReq sys''.registry 0 =
        some { (⟨0, "do you ship", none, "", .Pending, none, none, 0, none, false⟩ :
          EscalationRequest) with
            state := .Rejected, rejectionReason := some "spam" }) :=
  C4_resolve_learns_reject_does_not _ 0 _ "yes" "op" "spam" 5 rfl rfl

/-- C9: the race of two resolve calls on the same id, serialized at the
per-request transition boundary the spec mandates (§5): the first writer
takes the request out of `Pending` and succeeds, the second write — resolve
or reject — fails with `InvalidState`, and the stored answer is the first
writer's. -/
theorem C9_first_writer_wins (sys : Sys) (i : Nat) (r : EscalationRequest)
    (a1 a2 op1 op2 reason : String) (t1 t2 : Nat)
    (hr : getReq sys.registry i = some r) (hp : r.state = .Pending) :
    ∃ sys1, resolve sys i a1 op1 t1 = .ok sys1 ∧
      resolve sys1 i a2 op2 t2 = .error .InvalidState ∧
      reject sys1 i reason = .error .InvalidState ∧
      ∃ r1, getReq sys1.registry i = some r1 ∧
        r1.answer = some a1 ∧ r1.state = .Resolved := by
  obtain ⟨sys1, hok, hget, hstore, hframe⟩ :=
    resolve_pending_spec sys i r a1 op1 t1 hr hp
  refine ⟨sys1, hok, ?_, ?_, ?_⟩
  · exact resolve_terminal_error sys1 i _ a2 op2 t2 hget (by intro h; cases h)
  · exact reject_terminal_error sys1 i _ reason hget (by intro h; cases h)
  · exact ⟨_, hget, rfl, rfl⟩

/-- C9 witness: two resolve calls with different answers on one pending
request — the first succeeds and its answer is stored, the second fails. -/
theorem C9_first_writer_wins_witness :
    ∃ sys1, resolve ⟨[⟨7, "q", none, "", .Pending, none, none, 0, none, false⟩], []⟩
        7 "ans1" "opA" 3 = .ok sys1 ∧
      resolve sys1 7 "ans2" "opB" 4 = .error .InvalidState ∧
      reject sys1 7 "late" = .error .InvalidState ∧
      ∃ r1, getReq sys1.registry 7 = some r1 ∧
        r1.answer = some "ans1" ∧ r1.state = .Resolved :=
  C9_first_writer_wins _ 7 _ "ans1" "ans2" "opA" "opB" "late" 3 4 rfl rfl

/-! ### At-most-once notification -/

/-- The ids stored in a registry. -/
def idsOf (reg : List EscalationRequest) : List Nat := reg.map (fun r => r.id)

/-- The persisted `notified` flag of request `i`, read as `true` when the
request does not exist (no notification can ever fire for it). -/
def notifiedFlag (sys : Sys) (i : Nat) : Bool :=
  ((getReq sys.registry i).map (fun r => r.notified)).getD true

theorem resolve_ok_registry (sys : Sys) (i : Nat) (a op : String) (now : Nat)
    (sys' : Sys) (h : resolve sys i a op now = .ok sys') :
    sys'.registry = sys.registry.map (fun r' => if r'.id = i then
      { r' with state := .Resolved, answer := some a, resolvedAt := some now }
      else r') := by
  unfold resolve at h
  split at h
  · cases h
  · split at h
    · cases h; rfl
    · cases h

theorem reject_ok_registry (sys : Sys) (i : Nat) (reason : String)
    (sys' : Sys) (h : reject sys i reason = .ok sys') :
    sys'.registry = sys.registry.map (fun r' => if r'.id = i then
      { r' with state := .Rejected, rejectionReason := some reason }
      else r') := by
  unfold reject at h
  split at h
  · cases h
  · split at h
    · cases h; rfl
    · cases h

theorem applyEvent_registry_shape (sys : Sys) (t : Nat) (e : OpEvent) :
    (applyEvent sys t e).registry = sys.registry ∨
    ∃ (j : Nat) (f : EscalationRequest → EscalationRequest),
      (∀ r, (f r).id = r.id) ∧ (∀ r, (f r).notified = r.notified) ∧
      (applyEvent sys t e).registry =
        sys.registry.map (fun r => if r.id = j then f r else r) := by
  cases e with
  | resolveEv i a op =>
      simp only [applyEvent]
      rcases hres : resolve sys i a op t with err | sys'
      · exact Or.inl rfl
      · refine Or.inr ⟨i, fun r' : EscalationRequest =>
          { r' with state := .Resolved, answer := some a, resolvedAt := some t },
          fun r => rfl, fun r => rfl, ?_⟩
        exact resolve_ok_registry sys i a op t sys' hres
  | rejectEv i reason =>
      simp only [applyEvent]
      rcases hres : reject sys i reason with err | sys'
      · exact Or.inl rfl
      · refine Or.inr ⟨i, fun r' : EscalationRequest =>
          { r' with state := .Rejected, rejectionReason := some reason },
          fun r => rfl, fun r => rfl, ?_⟩
        exact reject_ok_registry sys i reason sys' hres

theorem applyEvent_idsOf (sys : Sys) (t : Nat) (e : OpEvent) :
    idsOf (applyEvent sys t e).registry = idsOf sys.registry := by
  rcases applyEvent_registry_shape sys t e with h | ⟨j, f, hid, _, h⟩
  · rw [h]
  · rw [h]
    unfold idsOf
    rw [List.map_map]
    apply List.map_congr_left
    intro r _
    by_cases hr : r.id = j <;> simp [hr, hid]

theorem monitor_idsOf (budget : Nat) (sys : Sys) :
    idsOf (monitorCycle budget sys).1.registry = idsOf sys.registry := by
  unfold monitorCycle idsOf
  rw [List.map_map]
  apply List.map_congr_left
  intro r _
  by_cases hr : lateCond budget r <;> simp [hr]

theorem applyEvent_notified_mono (sys : Sys) (t : Nat) (e : OpEvent) (i : Nat)
    (h : notifiedFlag sys i = true) : notifiedFlag (applyEvent sys t e) i = true := by
  unfold notifiedFlag at h ⊢
  rcases applyEvent_registry_shape sys t e with hsh | ⟨j, f, hid, hnot, hsh⟩
  · rw [hsh]; exact h
  · rw [hsh, getReq_map _ (by intro r; by_cases hr : r.id = j <;> simp [hr, hid])]
    rcases hg : getReq sys.registry i with _ | r
    · rfl
    · rw [hg] at h
      simp only [Option.map_some', Option.getD_some] at h ⊢
      by_cases hr : r.id = j <;> simp [hr, hnot, h]

theorem monitor_notified_mono (budget : Nat) (sys : Sys) (i : Nat)
    (h : notifiedFlag sys i = true) :
    notifiedFlag (monitorCycle budget sys).1 i = true := by
  unfold notifiedFlag at h ⊢
  rw [monitor_getReq]
  rcases hg : getReq sys.registry i with _ | r
  · rfl
  · rw [hg] at h
    simp only [Option.map_some', Option.getD_some] at h ⊢
    by_cases hl : lateCond budget r <;> simp [hl, h]

theorem lateCond_false_of_notified (budget : Nat) (r : EscalationRequest)
    (h : r.notified = true) : lateCond budget r = false := by
  unfold lateCond
  rw [h]
  simp

theorem filter_id_eq (i : Nat) :
    ∀ (reg : List EscalationRequest), (idsOf reg).Nodup →
      reg.filter (fun r => decide (r.id = i)) = (getReq reg i).toList := by
  intro reg
  induction reg with
  | nil => intro _; rfl
  | cons r rs ih =>
      intro hnd
      rw [idsOf, List.map_cons, List.nodup_cons] at hnd
      obtain ⟨hnotin, hnd'⟩ := hnd
      by_cases h : r.id = i
      · have hnil : rs.filter (fun x => decide (x.id = i)) = [] := by
          apply List.filter_eq_nil_iff.mpr
          intro x hx
          simp only [decide_eq_true_eq]
          intro hxi
          apply hnotin
          rw [h, ← hxi]
          exact List.mem_map.mpr ⟨x, hx, rfl⟩
        unfold getReq
        rw [List.filter_cons_of_pos (by simpa using h),
          List.find?_cons_of_pos _ (by simpa using h), hnil]
        rfl
      · unfold getReq
        rw [List.filter_cons_of_neg (by simpa using h),
          List.find?_cons_of_neg _ (by simpa using h)]
        exact ih hnd'

theorem noteCount_append (ns ms : List CallerNote) (i : Nat) :
    noteCount (ns ++ ms) i = noteCount ns i + noteCount ms i := by
  unfold noteCount
  rw [List.filter_append, List.length_append]

theorem monitor_noteCount (budget : Nat) (sys : Sys) (i : Nat)
    (hnd : (idsOf sys.registry).Nodup) :
    noteCount (monitorCycle budget sys).2 i =
      ((getReq sys.registry i).map
        (fun r => if lateCond budget r then 1 else 0)).getD 0 := by
  unfold noteCount monitorCycle
  simp only
  rw [List.filter_map, List.length_map]
  have hcomp :
      ((fun n : CallerNote => decide (n.requestId = i)) ∘
        (fun r : EscalationRequest => (⟨r.id, r.callerIdentity, r.question,
          r.answer.getD ""⟩ : CallerNote))) =
      fun r : EscalationRequest => decide (r.id = i) := rfl
  rw [hcomp, List.filter_filter]
  have hswap : sys.registry.filter (fun a => decide (a.id = i) && lateCond budget a) =
      sys.registry.filter (fun a => lateCond budget a && decide (a.id = i)) := by
    apply List.filter_congr
    intro a _
    exact Bool.and_comm _ _
  rw [hswap, ← List.filter_filter, filter_id_eq i sys.registry hnd]
  rcases hg : getReq sys.registry i with _ | r
  · rfl
  · simp only [Option.toList_some, Option.map_some', Option.getD_some]
    by_cases hl : lateCond budget r <;> simp [hl, List.filter]

theorem monitor_flag_after (budget : Nat) (sys : Sys) (i : Nat)
    (r : EscalationRequest) (hg : getReq sys.registry i = some r)
    (hl : lateCond budget r = true) :
    notifiedFlag (monitorCycle budget sys).1 i = true := by
  unfold notifiedFlag
  rw [monitor_getReq, hg]
  simp [hl]

theorem runSteps_at_most_once (budget i : Nat) :
    ∀ (steps : List Step) (sys : Sys), (idsOf sys.registry).Nodup →
      noteCount (runSteps budget sys steps).2 i ≤ 1 ∧
      (notifiedFlag sys i = true → noteCount (runSteps budget sys steps).2 i = 0) := by
  intro steps
  induction steps with
  | nil =>
      intro sys _
      exact ⟨by simp [runSteps, noteCount], fun _ => by simp [runSteps, noteCount]⟩
  | cons step rest ih =>
      intro sys hnd
      cases step with
      | ev t e =>
          have hnd' : (idsOf (applyEvent sys t e).registry).Nodup := by
            rw [applyEvent_idsOf]; exact hnd
          obtain ⟨h1, h2⟩ := ih (applyEvent sys t e) hnd'
          refine ⟨by simpa [runSteps] using h1, fun hflag => ?_⟩
          have := h2 (applyEvent_notified_mono sys t e i hflag)
          simpa [runSteps] using this
      | monitor =>
          have hnd' : (idsOf (monitorCycle budget sys).1.registry).Nodup := by
            rw [monitor_idsOf]; exact hnd
          obtain ⟨h1, h2⟩ := ih (monitorCycle budget sys).1 hnd'
          have hcnt := monitor_noteCount budget sys i hnd
          have hrun : noteCount (runSteps budget sys (.monitor :: rest)).2 i =
              noteCount (monitorCycle budget sys).2 i +
              noteCount (runSteps budget (monitorCycle budget sys).1 rest).2 i := by
            simp only [runSteps]
            exact noteCount_append _ _ _
          rcases hg : getReq sys.registry i with _ | r
          · rw [hg] at hcnt
            simp only [Option.map_none', Option.getD_none] at hcnt
            have hflag : notifiedFlag sys i = true := by
              unfold notifiedFlag
              rw [hg]
              rfl
            have hflag' := monitor_notified_mono budget sys i hflag
            rw [hrun, hcnt, h2 hflag']
            exact ⟨by omega, fun _ => by omega⟩
          · rw [hg] at hcnt
            simp only [Option.map_some', Option.getD_some] at hcnt
            by_cases hnotif : r.notified = true
            · have hflag : notifiedFlag sys i = true := by
                unfold notifiedFlag
                rw [hg]
                simpa using hnotif
              have hflag' := monitor_notified_mono budget sys i hflag
              have hzero : noteCount (monitorCycle budget sys).2 i = 0 := by
                rw [hcnt, lateCond_false_of_notified budget r hnotif]
                rfl
              rw [hrun, hzero, h2 hflag']
              exact ⟨by omega, fun _ => by omega⟩
            · by_cases hl : lateCond budget r
              · have hflag' := monitor_flag_after budget sys i r hg hl
                have hrest := h2 hflag'
                have hone : noteCount (monitorCycle budget sys).2 i = 1 := by
                  rw [hcnt]; simp [hl]
                rw [hrun, hone, hrest]
                refine ⟨by omega, fun hc => ?_⟩
                exfalso
                apply hnotif
                unfold notifiedFlag at hc
                rw [hg] at hc
                simpa using hc
              · have hzero2 : noteCount (monitorCycle budget sys).2 i = 0 := by
                  rw [hcnt]; simp [hl]
                rw [hrun, hzero2]
                refine ⟨by omega, fun hc => ?_⟩
                exfalso
                apply hnotif
                unfold notifiedFlag at hc
                rw [hg] at hc
                simpa using hc

/-- C2: a late-resolved escalation is notified at most once across every
interleaving of operator actions and monitor cycles — the per-request
`notified` flag (defaulting `false`, set in the same cycle as the notify
step) gates the path; the monitor never touches the knowledge store; and in
the spec's scenario (request created at t = 0, budget 60, operator resolve
at t = 75, monitor cycle afterwards) exactly one notification fires, while
the learned knowledge entry comes from the `resolve` call itself,
independent of the monitor. -/
theorem C2_late_notification_at_most_once :
    (∀ (budget : Nat) (sys : Sys) (steps : List Step) (i : Nat),
      (idsOf sys.registry).Nodup →
      noteCount (runSteps budget sys steps).2 i ≤ 1) ∧
    (∀ (budget : Nat) (sys : Sys), (monitorCycle budget sys).1.store = sys.store) ∧
    (runSteps 60 (createReq ⟨[], []⟩ 0 "q1" (some "Sarah") "call" 0)
        [.ev 75 (.resolveEv 0 "a1" "sup"), .monitor]).2 =
      [⟨0, some "Sarah", "q1", "a1"⟩] ∧
    (runSteps 60 (createReq ⟨[], []⟩ 0 "q1" (some "Sarah") "call" 0)
        [.ev 75 (.resolveEv 0 "a1" "sup"), .monitor]).1.store =
      [⟨normalize "q1", "a1", .operator, 0, 75, 75⟩] := by
  refine ⟨?_, fun budget sys => rfl, ?_, ?_⟩
  · intro budget sys steps i hnd
    exact (runSteps_at_most_once budget i steps sys hnd).1
  · decide
  · decide

/-- C2 witness: the at-most-once bound instantiated on the concrete scenario
system, with the id-uniqueness hypothesis discharged by computation. -/
theorem C2_late_notification_at_most_once_witness :
    noteCount (runSteps 60 (createReq ⟨[], []⟩ 0 "q1" (some "Sarah") "call" 0)
      [.ev 75 (.resolveEv 0 "a1" "sup"), .monitor, .monitor]).2 0 ≤ 1 :=
  C2_late_notification_at_most_once.1 60 _ _ 0 (by decide)

/-! ### Claim theorems for the knowledge store -/

/-- C6: on every lookup, each stored entry is scored by
`|tokens(question) ∩ tokens(entry.normalizedQuestion)| / |tokens(entry.normalizedQuestion)|`;
the hit (when declared) is a stored entry carrying exactly its own score,
that score is at least 1/2, no stored entry ranks higher under
(score, then most-recent-update), and the new store is the old one with
exactly that entry's `timesUsed` incremented by 1; moreover a hit is
declared precisely when some stored entry scores at least 1/2. -/
theorem C6_lookup_scoring_selection_increment :
    (∀ (store : List KnowledgeEntry) (q : String) (e : KnowledgeEntry) (s : ℚ)
        (store' : List KnowledgeEntry),
      lookup store q = (.hit e s, store') →
      ∃ i, store.get? i = some e ∧
        s = entryScore (tokens (normalize q)) e ∧
        (1 : ℚ)/2 ≤ s ∧
        (∀ e' ∈ store, lexLe (key (tokens (normalize q)) e')
          (key (tokens (normalize q)) e)) ∧
        store' = store.set i { e with timesUsed := e.timesUsed + 1 }) ∧
    (∀ (store : List KnowledgeEntry) (q : String),
      (lookup store q).1 ≠ .miss ↔
        ∃ e ∈ store, (1 : ℚ)/2 ≤ entryScore (tokens (normalize q)) e) :=
  ⟨lookup_hit_spec, lookup_hit_iff⟩

/-- C6 witness: a fully matching entry (case differing, punctuation added) is
hit with score 1 and its `timesUsed` goes from 3 to 4. -/
theorem C6_lookup_scoring_selection_increment_witness :
    (∃ i, ([⟨"do you ship", "yes", .operator, 3, 0, 5⟩] :
        List KnowledgeEntry).get? i = some ⟨"do you ship", "yes", .operator, 3, 0, 5⟩ ∧
      entryScore (tokens (normalize "Do you SHIP?")) ⟨"do you ship", "yes", .operator, 3, 0, 5⟩ =
        entryScore (tokens (normalize "Do you SHIP?")) ⟨"do you ship", "yes", .operator, 3, 0, 5⟩ ∧
      (1 : ℚ)/2 ≤ entryScore (tokens (normalize "Do you SHIP?"))
        ⟨"do you ship", "yes", .operator, 3, 0, 5⟩ ∧
      (∀ e' ∈ ([⟨"do you ship", "yes", .operator, 3, 0, 5⟩] : List KnowledgeEntry),
        lexLe (key (tokens (normalize "Do you SHIP?")) e')
          (key (tokens (normalize "Do you SHIP?")) ⟨"do you ship", "yes", .operator, 3, 0, 5⟩)) ∧
      ([⟨"do you ship", "yes", .operator, 4, 0, 5⟩] : List KnowledgeEntry) =
        ([⟨"do you ship", "yes", .operator, 3, 0, 5⟩] : List KnowledgeEntry).set i
          ⟨"do you ship", "yes", .operator, 3 + 1, 0, 5⟩) ∧
    (lookup [⟨"do you ship", "yes", .operator, 3, 0, 5⟩] "Do you SHIP?").1 ≠ .miss :=
  ⟨C6_lookup_scoring_selection_increment.1
      [⟨"do you ship", "yes", .operator, 3, 0, 5⟩] "Do you SHIP?"
      ⟨"do you ship", "yes", .operator, 3, 0, 5⟩
      (entryScore (tokens (normalize "Do you SHIP?")) ⟨"do you ship", "yes", .operator, 3, 0, 5⟩)
      [⟨"do you ship", "yes", .operator, 4, 0, 5⟩] (by decide),
    (C6_lookup_scoring_selection_increment.2
      [⟨"do you ship", "yes", .operator, 3, 0, 5⟩] "Do you SHIP?").mpr
      ⟨⟨"do you ship", "yes", .operator, 3, 0, 5⟩, by decide,
        by rw [← matchThreshold_eq]; decide⟩⟩

/-- C7: if no stored entry scores at least 1/2 against the question, lookup
returns a miss and the store is returned exactly as it was — no entry, and
in particular no `timesUsed` counter, changes. -/
theorem C7_lookup_miss_no_mutation (store : List KnowledgeEntry) (q : String)
    (h : ∀ e ∈ store, entryScore (tokens (normalize q)) e < (1 : ℚ)/2) :
    lookup store q = (.miss, store) :=
  lookup_miss_frame store q h

/-- C7 witness: a store whose lone entry shares no token with the query is
returned untouched with a miss. -/
theorem C7_lookup_miss_no_mutation_witness :
    lookup [⟨"refund policy", "30 days", .manual, 7, 0, 1⟩] "do you ship" =
      (.miss, [⟨"refund policy", "30 days", .manual, 7, 0, 1⟩]) :=
  C7_lookup_miss_no_mutation [⟨"refund policy", "30 days", .manual, 7, 0, 1⟩]
    "do you ship" (by
      intro e he
      rcases List.mem_singleton.mp he with rfl
      rw [← matchThreshold_eq]
      decide)

/-- C5 counterexample: the unconditional round-trip fails in two concrete
situations.  First, a question with no alphanumeric tokens ("???" strips to
an empty token set, every score is 0) is resolved and learned, yet the
follow-up lookup misses.  Second, when another entry ties at score 1 with an
equal `updatedAt` timestamp, the recency tie-break cannot separate them and
the lookup hit returns the other entry, whose answer is not the operator's
answer "A". -/
theorem C5_roundtrip_counterexample :
    (∃ sys', resolve ⟨[⟨0, "???", none, "", .Pending, none, none, 0, none, false⟩], []⟩
        0 "ans" "op" 5 = .ok sys' ∧
      (lookup sys'.store "???").1 = .miss) ∧
    (∃ sys', resolve ⟨[⟨0, "a a", none, "", .Pending, none, none, 0, none, false⟩],
        [⟨"a", "other", .manual, 0, 100, 100⟩]⟩ 0 "A" "op" 100 = .ok sys' ∧
      (lookup sys'.store "a a").1 = .hit ⟨"a", "other", .manual, 0, 100, 100⟩ 1) := by
  constructor
  · exact ⟨_, rfl, by decide⟩
  · exact ⟨_, rfl, by decide⟩

theorem lexLe_eq_of_max {a b : ℚ × Nat} (h : lexLe a b) (ha : a.1 = 1)
    (hb : b.1 ≤ 1) : b.1 = 1 ∧ a.2 ≤ b.2 := by
  rcases h with h | ⟨h, h'⟩
  · rw [ha] at h
    exact absurd hb (not_le_of_lt h)
  · exact ⟨h ▸ ha, h'⟩

/-- C5 (amended): after `resolve(I, A)` succeeds on a pending request whose
question has at least one token and whose resolution timestamp is strictly
later than every existing entry's `updatedAt`, a lookup on the original
question hits with score 1 and returns an entry whose answer is A. -/
theorem C5_roundtrip_amended (sys : Sys) (i : Nat) (r : EscalationRequest)
    (a op : String) (now : Nat)
    (hr : getReq sys.registry i = some r) (hp : r.state = .Pending)
    (htok : tokens (normalize r.question) ≠ [])
    (hfresh : ∀ e ∈ sys.store, e.updatedAt < now) :
    ∃ sys', resolve sys i a op now = .ok sys' ∧
      ∃ e s store', lookup sys'.store r.question = (.hit e s, store') ∧
        e.answer = a ∧ s = 1 := by
  refine ⟨_, resolve_pending_ok sys i r a op now hr hp, ?_⟩
  set st' := upsert sys.store r.question a .operator now with hst'
  set tq := tokens (normalize r.question) with htq
  obtain ⟨x, hxmem, hxq, hxa, hxu⟩ := upsert_has_key sys.store r.question a .operator now
  have hxscore : entryScore tq x = 1 := by
    apply entryScore_self
    · rw [hxq]
    · exact htok
  obtain ⟨j, b, hpick⟩ := pickBest_isSome tq st'
    (upsert_ne_nil sys.store r.question a .operator now)
  have hopt := pickBest_opt tq st' j b hpick x hxmem
  have hble : entryScore tq b ≤ 1 := entryScore_le_one tq b
  have hkey : entryScore tq b = 1 ∧ x.updatedAt ≤ b.updatedAt := by
    have := lexLe_eq_of_max hopt (by simpa [key] using hxscore)
      (by simpa [key] using hble)
    simpa [key] using this
  have hbmem : b ∈ st' := List.get?_mem (pickBest_get? tq st' j b hpick)
  have hba : b.answer = a := by
    rcases upsert_mem sys.store r.question a .operator now b hbmem with ⟨-, hba, -⟩ | hbold
    · exact hba
    · exfalso
      have hlt := hfresh b hbold
      have : now ≤ b.updatedAt := hxu ▸ hkey.2
      omega
  have hhalf : matchThreshold ≤ entryScore tq b := by
    rw [matchThreshold_eq, hkey.1]
    norm_num
  refine ⟨b, entryScore tq b, st'.set j { b with timesUsed := b.timesUsed + 1 }, ?_, hba, hkey.1⟩
  unfold lookup
  rw [← htq, hpick]
  simp only [if_pos hhalf]

/-- C5 (amended) witness: escalate "do you ship", resolve with "yes" at time
5 over an empty store, and the follow-up lookup on the original question
hits with answer "yes" at score 1. -/
theorem C5_roundtrip_amended_witness :
    ∃ sys', resolve ⟨[⟨0, "do you ship", none, "", .Pending, none, none, 0, none, false⟩],
        []⟩ 0 "yes" "op" 5 = .ok sys' ∧
      ∃ e s store', lookup sys'.store "do you ship" = (.hit e s, store') ∧
        e.answer = "yes" ∧ s = 1 :=
  C5_roundtrip_amended ⟨[⟨0, "do you ship", none, "", .Pending, none, none, 0, none, false⟩],
      []⟩ 0 ⟨0, "do you ship", none, "", .Pending, none, none, 0, none, false⟩
    "yes" "op" 5 rfl rfl (by decide) (by intro e he; cases he)

/-! ### Voice WebSocket reconnection (embedded from
`frontend/src/lib/voiceWebSocket.ts`) -/

/-- Reconnection state of a `VoiceWebSocket` instance: the private
`reconnectAttempts` counter (voiceWebSocket.ts, field initialised to 0). -/
structure WSState where
  reconnectAttempts : Nat
deriving DecidableEq

/-- Constant `maxReconnectAttempts = 3` (voiceWebSocket.ts). -/
def maxReconnectAttempts : Nat := 3

/-- Constant `reconnectDelay = 1000` milliseconds (voiceWebSocket.ts). -/
def reconnectDelay : Nat := 1000

/-- Socket lifecycle events the handlers react to: a successful `onopen`
and an `onclose`. -/
inductive WSEvent where
  | openEv
  | closeEv
deriving DecidableEq

/-- The `onopen` and `onclose` handlers of `VoiceWebSocket.connect`:
`onopen` resets `reconnectAttempts` to 0; `onclose` schedules a reconnect
only while `reconnectAttempts < maxReconnectAttempts`, first incrementing
the counter and then delaying by `reconnectDelay * reconnectAttempts`
evaluated after the increment.  The second component is `some delay` when a
reconnect was scheduled. -/
def stepWS (s : WSState) : WSEvent → WSState × Option Nat
  | .openEv => (⟨0⟩, none)
  | .closeEv =>
      if s.reconnectAttempts < maxReconnectAttempts then
        (⟨s.reconnectAttempts + 1⟩, some (reconnectDelay * (s.reconnectAttempts + 1)))
      else (s, none)

/-- Initial client state: `reconnectAttempts = 0`. -/
def initWS : WSState := ⟨0⟩

/-- Run a sequence of socket events, counting how many reconnects were
scheduled along the way. -/
def runWS : WSState → List WSEvent → WSState × Nat
  | s, [] => (s, 0)
  | s, e :: es =>
      ((runWS (stepWS s e).1 es).1,
       (if (stepWS s e).2.isSome then 1 else 0) + (runWS (stepWS s e).1 es).2)

theorem stepWS_le (s : WSState) (e : WSEvent)
    (h : s.reconnectAttempts ≤ maxReconnectAttempts) :
    (stepWS s e).1.reconnectAttempts ≤ maxReconnectAttempts := by
  cases e with
  | openEv => simp [stepWS, maxReconnectAttempts]
  | closeEv =>
      unfold stepWS
      by_cases hc : s.reconnectAttempts < maxReconnectAttempts
      · rw [if_pos hc]
        exact hc
      · rw [if_neg hc]
        exact h

theorem runWS_inv : ∀ (evs : List WSEvent) (s : WSState),
    s.reconnectAttempts ≤ maxReconnectAttempts →
    (runWS s evs).1.reconnectAttempts ≤ maxReconnectAttempts := by
  intro evs
  induction evs with
  | nil => intro s h; exact h
  | cons e es ih =>
      intro s h
      simpa [runWS] using ih (stepWS s e).1 (stepWS_le s e h)

theorem closeRun_count : ∀ (k : Nat) (s : WSState),
    (runWS s (List.replicate k .closeEv)).2 + s.reconnectAttempts =
      (runWS s (List.replicate k .closeEv)).1.reconnectAttempts := by
  intro k
  induction k with
  | zero => intro s; simp [runWS]
  | succ k ih =>
      intro s
      rw [List.replicate_succ]
      by_cases hc : s.reconnectAttempts < maxReconnectAttempts
      · have h1 : stepWS s .closeEv =
            (⟨s.reconnectAttempts + 1⟩, some (reconnectDelay * (s.reconnectAttempts + 1))) := by
          unfold stepWS
          rw [if_pos hc]
        simp only [runWS, h1, Option.isSome_some, if_true]
        have := ih ⟨s.reconnectAttempts + 1⟩
        simp only at this
        omega
      · have h1 : stepWS s .closeEv = (s, none) := by
          unfold stepWS
          rw [if_neg hc]
        simp only [runWS, h1, Option.isSome_none, Bool.false_eq_true, if_false]
        have := ih s
        simp only at this
        omega

/-- C10: the reconnect logic of `VoiceWebSocket` — a close schedules a
reconnection exactly while `reconnectAttempts < maxReconnectAttempts = 3`,
incrementing the counter before the retry and delaying by
`reconnectDelay × reconnectAttempts` with the incremented value (1s, 2s, 3s
linear backoff); a successful open resets the counter to 0; consequently
`reconnectAttempts ≤ 3` holds in every reachable state and at most 3
consecutive reconnections are attempted without an intervening successful
connection. -/
theorem C10_reconnect_bounded :
    (∀ evs : List WSEvent,
      (runWS initWS evs).1.reconnectAttempts ≤ maxReconnectAttempts) ∧
    (∀ (s : WSState) (d : Nat), (stepWS s .closeEv).2 = some d →
      s.reconnectAttempts < maxReconnectAttempts ∧
      (stepWS s .closeEv).1.reconnectAttempts = s.reconnectAttempts + 1 ∧
      d = reconnectDelay * (s.reconnectAttempts + 1)) ∧
    (∀ s : WSState, stepWS s .openEv = (⟨0⟩, none)) ∧
    (stepWS ⟨0⟩ .closeEv = (⟨1⟩, some 1000) ∧
      stepWS ⟨1⟩ .closeEv = (⟨2⟩, some 2000) ∧
      stepWS ⟨2⟩ .closeEv = (⟨3⟩, some 3000) ∧
      stepWS ⟨3⟩ .closeEv = (⟨3⟩, none)) ∧
    (∀ (k : Nat) (s : WSState), s.reconnectAttempts ≤ maxReconnectAttempts →
      (runWS s (List.replicate k .closeEv)).2 ≤ maxReconnectAttempts) := by
  refine ⟨?_, ?_, fun s => rfl, ⟨rfl, rfl, rfl, rfl⟩, ?_⟩
  · intro evs
    exact runWS_inv evs initWS (by simp [initWS, maxReconnectAttempts])
  · intro s d h
    unfold stepWS at h ⊢
    by_cases hc : s.reconnectAttempts < maxReconnectAttempts
    · rw [if_pos hc] at h ⊢
      simp only [Option.some.injEq] at h
      exact ⟨hc, rfl, h.symm⟩
    · rw [if_neg hc] at h
      cases h
  · intro k s h
    have hcount := closeRun_count k s
    have hfin := runWS_inv (List.replicate k .closeEv) s h
    calc (runWS s (List.replicate k .closeEv)).2
        ≤ (runWS s (List.replicate k .closeEv)).2 + s.reconnectAttempts :=
          Nat.le_add_right _ _
      _ = (runWS s (List.replicate k .closeEv)).1.reconnectAttempts := hcount
      _ ≤ maxReconnectAttempts := hfin

/-- C10 witness: a close from the fresh state schedules the 1000 ms retry
with the counter incremented to 1, and ten consecutive closes schedule at
most 3 reconnects. -/
theorem C10_reconnect_bounded_witness :
    ((0 : Nat) < maxReconnectAttempts ∧
      (stepWS ⟨0⟩ .closeEv).1.reconnectAttempts = 0 + 1 ∧
      (1000 : Nat) = reconnectDelay * (0 + 1)) ∧
    (runWS initWS (List.replicate 10 .closeEv)).2 ≤ maxReconnectAttempts :=
  ⟨C10_reconnect_bounded.2.1 ⟨0⟩ 1000 (by decide),
    C10_reconnect_bounded.2.2.2.2 10 initWS (by decide)⟩

end HITL
